import Mathlib

/-!
Shallow embedding of `src/image-collage.py` (class `CollageGenerator` and the
`main` driver).  Pure Python functions become Lean functions; the filesystem is
passed explicitly: a directory listing is a list of `(name, isFile)` pairs and
the image store is a function `String → Option Img` (where `none` models an
exception raised by `Image.open` / `convert` / `paste` for that path).  Writing
a JPEG is modelled by returning the composed canvas together with its output
path; byte-level JPEG encoding and the configured quality are outside the
model.  Machine integers are `Nat`/`Int` (Python ints are unbounded, so no
overflow is involved).
-/

namespace ImageCollage

/-- Configuration, from `_load_config`: keys `supported_formats`,
`jpeg_quality`, `skip_errors` of section DEFAULT. -/
structure Config where
  supported_formats : String
  jpeg_quality : Nat
  skip_errors : Bool

/-- The `default_config` dictionary of `_load_config`. -/
def default_config : Config :=
  { supported_formats := ".jpg,.jpeg,.png", jpeg_quality := 85, skip_errors := true }

/-- An RGB color, one pixel value. -/
abbrev Color := Nat × Nat × Nat

/-- The canvas background color, PIL's named color `white`. -/
def white : Color := (255, 255, 255)

/-- A PIL image: dimensions, mode string, and pixel contents as a function of
coordinates (queried only inside the bounds). -/
structure Img where
  width : Nat
  height : Nat
  mode : String
  pix : Nat → Nat → Color

/-- Model of the conversion img.convert to mode RGB: pixel values and size are kept
(alpha or palette flattening is absorbed into the pixel function). -/
def convertRGB (i : Img) : Img := { i with mode := "RGB" }

/-- Model of Image.new with mode RGB, size `(w, h)` and background white. -/
def newCanvas (w h : Nat) : Img :=
  { width := w, height := h, mode := "RGB", pix := fun _ _ => white }

/-- Model of `canvas.paste` at `(x0, y0)`: pixels inside the pasted rectangle come from
`img`, the rest of the canvas is unchanged.  Size and mode of the canvas are
unchanged. -/
def paste (canvas img : Img) (x0 y0 : Nat) : Img :=
  { canvas with pix := fun x y =>
      if x0 ≤ x ∧ x < x0 + img.width ∧ y0 ≤ y ∧ y < y0 + img.height then
        (img.pix (x - x0) (y - y0))
      else canvas.pix x y }

/-- Python `str.lower()` (ASCII range; the inputs of interest are ASCII). -/
def lowerStr (s : String) : String := ⟨s.data.map Char.toLower⟩

/-- Python `str.startswith(pre)`: character-sequence comparison. -/
def startsWithStr (s pre : String) : Bool := pre.data.isPrefixOf s.data

/-- Python `str.endswith(suf)`: character-sequence comparison. -/
def endsWithStr (s suf : String) : Bool := suf.data.isSuffixOf s.data

/-- Auxiliary for `splitComma`, accumulating the current field reversed. -/
def splitCommaAux (cur : List Char) : List Char → List (List Char)
  | [] => [cur.reverse]
  | c :: cs => if c = ',' then cur.reverse :: splitCommaAux [] cs else splitCommaAux (c :: cur) cs

/-- Python `s.split(',')`. -/
def splitComma (s : String) : List String :=
  (splitCommaAux [] s.data).map (fun l => ⟨l⟩)

/-- Lexicographic comparison of character lists by code point, executable. -/
def lexLeb : List Char → List Char → Bool
  | [], _ => true
  | _ :: _, [] => false
  | a :: as, b :: bs => if a < b then true else if b < a then false else lexLeb as bs

/-- Python string comparison `a <= b`: lexicographic by code point. -/
def strLeb (a b : String) : Bool := lexLeb a.data b.data

/-- Python `sorted` on strings: ascending lexicographic.  (`strLeb` agrees
with the order `≤` on `String`, see `strLeb_iff_le` below.) -/
def sortStrings (l : List String) : List String :=
  List.insertionSort (fun a b => strLeb a b = true) l

/-- Model of `os.path.join` for a relative final component. -/
def pathJoin (d f : String) : String := d ++ "/" ++ f

/-- Model of `os.path.dirname`: everything before the last slash. -/
def dirname (p : String) : String :=
  ⟨((p.data.reverse.dropWhile (fun c => c ≠ '/')).drop 1).reverse⟩

/-- Model of `get_image_files` (lines 45-69): the listing of the directory is
passed as `(name, isFile)` pairs in listing order; entries that are not files
are ignored, a file whose lowercased name starts with `collage_` is skipped,
and a file is kept when its lowercased name ends with one of the comma-split
configured formats, compared verbatim as in
file.lower().endswith(fmt).  Kept names are joined to the directory and the
full paths are returned sorted ascending (Python `sorted`). -/
def get_image_files (cfg : Config) (directory : String)
    (entries : List (String × Bool)) : List String :=
  let supported_formats := splitComma cfg.supported_formats
  let files := (entries.filter (fun e => e.2)).map (fun e => e.1)
  let image_files := (files.filter (fun f =>
      !(startsWithStr (lowerStr f) "collage_") &&
      supported_formats.any (fun fmt => endsWithStr (lowerStr f) fmt))).map
    (fun f => pathJoin directory f)
  sortStrings image_files

/-- The claim's reading of the scanner filter: the suffix comparison is
case-insensitive on both sides, lowercasing the extension as well.  Stated
from the spec sentence, for comparison with `get_image_files`. -/
def get_image_files_ci (cfg : Config) (directory : String)
    (entries : List (String × Bool)) : List String :=
  let supported_formats := splitComma cfg.supported_formats
  let files := (entries.filter (fun e => e.2)).map (fun e => e.1)
  let image_files := (files.filter (fun f =>
      !(startsWithStr (lowerStr f) "collage_") &&
      supported_formats.any (fun fmt => endsWithStr (lowerStr f) (lowerStr fmt)))).map
    (fun f => pathJoin directory f)
  sortStrings image_files

/-- Least `j` with `k ≤ j` and `n ≤ j * j`, searched upward with fuel. -/
def leastRootAbove (n : Nat) : Nat → Nat → Nat
  | k, 0 => k
  | k, fuel + 1 => if n ≤ k * k then k else leastRootAbove n (k + 1) fuel

/-- Model of the expression math.ceil of math.sqrt of n, line 72, exactly over the integers as
the least `k` with `n ≤ k * k` (the float computation is exact on the argument
range of interest). -/
def gridSide (n : Nat) : Nat := leastRootAbove n 0 (n + 1)

/-- Model of `calculate_grid_size` (lines 71-73). -/
def calculate_grid_size (num_images : Nat) (target_size : Int) : Nat × Nat :=
  (gridSide num_images, gridSide num_images)

/-- The clamp of lines 83-85: a target size below 100 is replaced by 2000. -/
def clampTargetSize (target_size : Int) : Int :=
  if target_size < 100 then 2000 else target_size

/-- Lines 83-94 of `create_collages`: the clamp followed by
`images_per_row = max(1, target_size // thumb_size[0])` and
`images_per_collage = max(1, images_per_row * images_per_row)`.  The clamped
target is at least 100, so Python floor division agrees with `Nat` division
on `toNat`. -/
def computeChunking (thumbWidth : Nat) (target_size : Int) : Nat × Nat :=
  let ts := clampTargetSize target_size
  let images_per_row := max 1 (ts.toNat / thumbWidth)
  (images_per_row, max 1 (images_per_row * images_per_row))

/-- Auxiliary for `chunksOf`: fuel-driven splitting into runs of `ipc`
elements (the fuel is the length of the list, consumed at least one element
per step). -/
def chunksOfAux (ipc : Nat) : Nat → List α → List (List α)
  | 0, _ => []
  | _ + 1, [] => []
  | fuel + 1, x :: xs => (x :: xs.take (ipc - 1)) :: chunksOfAux ipc fuel (xs.drop (ipc - 1))

/-- Model of the slices image_files[i:i+images_per_collage] for i in steps of ipc
(lines 104-105): the list split into contiguous chunks of `ipc` elements, the
last chunk possibly shorter. -/
def chunksOf (ipc : Nat) (l : List α) : List (List α) := chunksOfAux ipc l.length l

/-- x coordinate of cell `idx`: `col * thumb_size[0]` with `col = idx % cols`. -/
def cellX (cols tw idx : Nat) : Nat := idx % cols * tw

/-- y coordinate of cell `idx`: `row * thumb_size[1]` with `row = idx // cols`. -/
def cellY (cols th idx : Nat) : Nat := idx / cols * th

/-- The paste rectangle of image `img` placed for index `idx` contains pixel
`(x, y)`. -/
def covers (cols tw th idx : Nat) (img : Img) (x y : Nat) : Prop :=
  cellX cols tw idx ≤ x ∧ x < cellX cols tw idx + img.width ∧
  cellY cols th idx ≤ y ∧ y < cellY cols th idx + img.height

instance (cols tw th idx : Nat) (img : Img) (x y : Nat) :
    Decidable (covers cols tw th idx img x y) := by
  unfold covers
  exact inferInstance

/-- The inner loop of lines 110-122: each image of the chunk in order, at
running index `idx`, is opened, converted to RGB and pasted at
`(col * tw, row * th)`; a failing image returns `none` (the raised exception)
when `skip` is false and is skipped otherwise. -/
def pasteAll (fs : String → Option Img) (skip : Bool) (tw th cols : Nat) :
    Nat → List String → Img → Option Img
  | _, [], canvas => some canvas
  | idx, p :: ps, canvas =>
    match fs p with
    | some img =>
      pasteAll fs skip tw th cols (idx + 1) ps
        (paste canvas (convertRGB img) (cellX cols tw idx) (cellY cols th idx))
    | none => if skip then pasteAll fs skip tw th cols (idx + 1) ps canvas else none

/-- One iteration of the chunk loop body (lines 106-117): the grid for the
chunk length, a fresh white canvas of size `(cols * tw, rows * th)`, then the
paste loop. -/
def composeChunk (fs : String → Option Img) (skip : Bool) (tw th : Nat)
    (target_size : Int) (chunk : List String) : Option Img :=
  let rc := calculate_grid_size chunk.length target_size
  pasteAll fs skip tw th rc.2 0 chunk (newCanvas (rc.2 * tw) (rc.1 * th))

/-- The chunk loop of lines 104-128, carrying the 1-based chunk index `k`:
each chunk is composed and saved as `collage_<k>.jpg` in the output directory;
a raised per-image error (composition `none`) propagates, keeping the outputs
already written and marking the run failed (`false`). -/
def runChunks (fs : String → Option Img) (skip : Bool) (tw th : Nat)
    (target_size : Int) (outDir : String) : Nat → List (List String) →
    List (String × Img) × Bool
  | _, [] => ([], true)
  | k, chunk :: rest =>
    match composeChunk fs skip tw th target_size chunk with
    | none => ([], false)
    | some canvas =>
      let output_path := pathJoin outDir ("collage_" ++ toString k ++ ".jpg")
      let r := runChunks fs skip tw th target_size outDir (k + 1) rest
      ((output_path, canvas) :: r.1, r.2)

/-- Model of `create_collages` (lines 75-130).  The result is
the list of written collages (output path and composed canvas, in order)
together with `true` when the function returned normally and `false` when an
exception propagated out of it (in which case the collages written before the
exception are still listed). -/
def create_collages (fs : String → Option Img) (cfg : Config)
    (image_files : List String) (target_size : Int) : List (String × Img) × Bool :=
  match image_files with
  | [] => ([], true)
  | f0 :: _ =>
    match fs f0 with
    | none => ([], false)
    | some sample =>
      let c := computeChunking sample.width target_size
      let output_dir := dirname f0
      runChunks fs cfg.skip_errors sample.width sample.height
        (clampTargetSize target_size) output_dir 1 (chunksOf c.2 image_files)

/-- The subdirectory loop of `main` (lines 170-192), for the run without a
root thumbs directory.  Each entry is a subdirectory name together with
`none` when it has no `thumbs` subfolder and `some listing` (the thumbs
directory listing) otherwise.  A directory without thumbs or without images is
skipped with `continue`; otherwise `create_collages` runs, and since the loop
body has no exception handler a propagating error ends the whole loop
(`false`), leaving later directories unprocessed. -/
def processSubdirs (fs : String → Option Img) (cfg : Config) (root : String)
    (target_size : Int) : List (String × Option (List (String × Bool))) →
    List (List (String × Img)) × Bool
  | [] => ([], true)
  | (_, none) :: rest => processSubdirs fs cfg root target_size rest
  | (subdir, some listing) :: rest =>
    let thumbs_dir := pathJoin (pathJoin root subdir) "thumbs"
    let image_files := get_image_files cfg thumbs_dir listing
    if image_files.isEmpty then processSubdirs fs cfg root target_size rest
    else
      let res := create_collages fs cfg image_files target_size
      if res.2 then
        let r := processSubdirs fs cfg root target_size rest
        (res.1 :: r.1, r.2)
      else ([res.1], false)


/-- The output names `collage_<k>.jpg`, `collage_<k+1>.jpg`, ... for `n`
consecutive chunks, joined to the output directory. -/
def collageNames (outDir : String) (k n : Nat) : List String :=
  (List.range n).map (fun i => pathJoin outDir ("collage_" ++ toString (k + i) ++ ".jpg"))

/-- A gray 500 by 500 test image. -/
def imgW : Img := { width := 500, height := 500, mode := "RGB", pix := fun _ _ => (7, 7, 7) }

/-- A store where every path opens as `imgW`. -/
def fsW : String → Option Img := fun _ => some imgW

/-- The default configuration with `skip_errors` set to False. -/
def cfgNoSkip : Config := { default_config with skip_errors := false }

/-- A store where only the second test image fails to open. -/
def fs7 : String → Option Img := fun p =>
  if p = "d/b.jpg" then none else some imgW

/-- A store for the driver test: only `root/d2/thumbs/b.jpg` opens. -/
def fsC2 : String → Option Img := fun p =>
  if p = "root/d2/thumbs/b.jpg" then
    some { width := 100, height := 100, mode := "RGB", pix := fun _ _ => (0, 0, 0) }
  else none

/-- A constant-color 400 by 400 test image, one per color index. -/
def img8 (c : Nat) : Img := { width := 400, height := 400, mode := "RGB", pix := fun _ _ => (c, 0, 0) }

/-- A store holding the five 400 by 400 images of the end-to-end scenario. -/
def fs8 : String → Option Img := fun p =>
  if p = "d/thumbs/a1.jpg" then some (img8 1)
  else if p = "d/thumbs/a2.jpg" then some (img8 2)
  else if p = "d/thumbs/a3.jpg" then some (img8 3)
  else if p = "d/thumbs/a4.jpg" then some (img8 4)
  else if p = "d/thumbs/a5.jpg" then some (img8 5)
  else none

/-- The scan of the end-to-end directory with five images. -/
def files8 : List String := get_image_files default_config "d/thumbs"
  [("a3.jpg", true), ("a1.jpg", true), ("a5.jpg", true), ("a2.jpg", true), ("a4.jpg", true)]

/-! ### Lemmas about the string order used by `sortStrings` -/

theorem lexLeb_iff_lex : ∀ as bs : List Char,
    lexLeb as bs = true ↔ ¬ List.Lex (· < ·) bs as
  | [], [] => iff_of_true rfl (fun h => nomatch h)
  | [], _ :: _ => iff_of_true rfl (fun h => nomatch h)
  | a :: as, [] => iff_of_false (by simp [lexLeb]) (fun h => h List.Lex.nil)
  | a :: as, b :: bs => by
    by_cases hab : a < b
    · refine iff_of_true (by simp [lexLeb, hab]) (fun h => ?_)
      cases h with
      | cons h3 => exact lt_irrefl _ hab
      | rel h2 => exact lt_asymm hab h2
    · by_cases hba : b < a
      · exact iff_of_false (by simp [lexLeb, hab, hba])
          (fun h => h (List.Lex.rel hba))
      · have hstep : lexLeb (a :: as) (b :: bs) = lexLeb as bs := by
          simp [lexLeb, hab, hba]
        have heq : a = b := le_antisymm (not_lt.mp hba) (not_lt.mp hab)
        subst heq
        rw [hstep, lexLeb_iff_lex as bs]
        constructor
        · intro h hcons
          cases hcons with
          | cons h3 => exact h h3
          | rel h2 => exact lt_irrefl _ h2
        · intro h h3
          exact h (List.Lex.cons h3)

theorem strLeb_iff_le (a b : String) : strLeb a b = true ↔ a ≤ b := by
  rw [String.le_iff_toList_le, ← not_lt]
  exact lexLeb_iff_lex a.data b.data

theorem sortStrings_perm (l : List String) : (sortStrings l).Perm l :=
  List.perm_insertionSort _ l

theorem mem_sortStrings {l : List String} {x : String} :
    x ∈ sortStrings l ↔ x ∈ l :=
  (sortStrings_perm l).mem_iff

theorem sortStrings_sorted (l : List String) :
    List.Sorted (· ≤ ·) (sortStrings l) := by
  haveI ht : IsTrans String (fun a b => strLeb a b = true) := by
    constructor
    intro a b c hab hbc
    exact (strLeb_iff_le a c).mpr
      (le_trans ((strLeb_iff_le a b).mp hab) ((strLeb_iff_le b c).mp hbc))
  haveI hto : IsTotal String (fun a b => strLeb a b = true) := by
    constructor
    intro a b
    rcases le_total a b with h | h
    · exact Or.inl ((strLeb_iff_le a b).mpr h)
    · exact Or.inr ((strLeb_iff_le b a).mpr h)
  have hs := List.sorted_insertionSort (fun a b : String => strLeb a b = true) l
  exact hs.imp (fun h => (strLeb_iff_le _ _).mp h)

/-! ### Path helper lemmas -/

theorem dirname_pathJoin (d f : String) (hf : '/' ∉ f.data) :
    dirname (pathJoin d f) = d := by
  unfold dirname pathJoin
  have hcond : ∀ c ∈ f.data.reverse, (fun c => decide (c ≠ '/')) c = true := by
    intro c hc
    simp only [ne_eq, decide_eq_true_eq]
    intro hcs
    exact hf (hcs ▸ List.mem_reverse.mp hc)
  have hdata : (d ++ "/" ++ f).data = d.data ++ '/' :: f.data := by
    simp [String.data_append]
  rw [hdata, List.reverse_append, List.reverse_cons, List.append_assoc,
    List.dropWhile_append_of_pos hcond]
  have h2 : List.dropWhile (fun c => decide (c ≠ '/')) (['/'] ++ d.data.reverse)
      = '/' :: d.data.reverse := by
    rw [List.singleton_append, List.dropWhile_cons]
    simp
  rw [h2]
  simp only [List.drop_succ_cons, List.drop_zero, List.reverse_reverse]

/-! ### The grid side is the integer ceiling of the square root -/

theorem leastRootAbove_spec (n : Nat) : ∀ fuel k, n ≤ (k + fuel) * (k + fuel) →
    k ≤ leastRootAbove n k fuel ∧
    n ≤ leastRootAbove n k fuel * leastRootAbove n k fuel ∧
    ∀ j, k ≤ j → n ≤ j * j → leastRootAbove n k fuel ≤ j := by
  intro fuel
  induction fuel with
  | zero =>
    intro k hk
    refine ⟨le_refl k, ?_, ?_⟩
    · simpa [leastRootAbove] using hk
    · intro j hj _
      simpa [leastRootAbove] using hj
  | succ fuel ih =>
    intro k hk
    by_cases hstop : n ≤ k * k
    · refine ⟨?_, ?_, ?_⟩
      · simp [leastRootAbove, hstop]
      · simpa [leastRootAbove, hstop] using hstop
      · intro j hj _
        simpa [leastRootAbove, hstop] using hj
    · have hrw : leastRootAbove n k (fuel + 1) = leastRootAbove n (k + 1) fuel := by
        simp [leastRootAbove, hstop]
      have harg : k + (fuel + 1) = (k + 1) + fuel := by omega
      rw [harg] at hk
      obtain ⟨h1, h2, h3⟩ := ih (k + 1) hk
      refine ⟨?_, ?_, ?_⟩
      · rw [hrw]; omega
      · rw [hrw]; exact h2
      · intro j hj hjj
        rw [hrw]
        have hkj : k + 1 ≤ j := by
          rcases Nat.eq_or_lt_of_le hj with he | hl
          · exact absurd (he ▸ hjj) hstop
          · exact hl
        exact h3 j hkj hjj

theorem gridSide_spec (n : Nat) :
    n ≤ gridSide n * gridSide n ∧ ∀ j, n ≤ j * j → gridSide n ≤ j := by
  have hbound : n ≤ (0 + (n + 1)) * (0 + (n + 1)) := by
    simp only [Nat.zero_add]
    calc n ≤ n + 1 := Nat.le_succ n
    _ ≤ (n + 1) * (n + 1) := Nat.le_mul_of_pos_left _ (Nat.succ_pos n)
  obtain ⟨_, h2, h3⟩ := leastRootAbove_spec n (n + 1) 0 hbound
  exact ⟨h2, fun j hj => h3 j (Nat.zero_le j) hj⟩

/-! ### Chunking lemmas -/

theorem chunksOfAux_nil (ipc : Nat) : ∀ fuel, chunksOfAux ipc fuel ([] : List α) = []
  | 0 => rfl
  | _ + 1 => rfl

theorem chunksOfAux_flatten (ipc : Nat) : ∀ fuel (l : List α), l.length ≤ fuel →
    (chunksOfAux ipc fuel l).flatten = l := by
  intro fuel
  induction fuel with
  | zero =>
    intro l hl
    have h : l = [] := List.eq_nil_of_length_eq_zero (Nat.le_zero.mp hl)
    subst h
    rfl
  | succ fuel ih =>
    intro l hl
    cases l with
    | nil => rfl
    | cons x xs =>
      have hxs : (xs.drop (ipc - 1)).length ≤ fuel := by
        simp only [List.length_drop]
        simp only [List.length_cons] at hl
        omega
      simp only [chunksOfAux, List.flatten_cons, ih _ hxs]
      simp [List.take_append_drop]

theorem chunksOf_flatten (ipc : Nat) (l : List α) : (chunksOf ipc l).flatten = l :=
  chunksOfAux_flatten ipc l.length l (le_refl _)

theorem chunksOfAux_mem (ipc : Nat) (hipc : 1 ≤ ipc) :
    ∀ fuel (l : List α) c, c ∈ chunksOfAux ipc fuel l → c ≠ [] ∧ c.length ≤ ipc := by
  intro fuel
  induction fuel with
  | zero =>
    intro l c hc
    simp [chunksOfAux] at hc
  | succ fuel ih =>
    intro l c hc
    cases l with
    | nil => simp [chunksOfAux] at hc
    | cons x xs =>
      simp only [chunksOfAux, List.mem_cons] at hc
      rcases hc with he | hm
      · subst he
        refine ⟨by simp, ?_⟩
        simp only [List.length_cons, List.length_take]
        omega
      · exact ih _ c hm

theorem chunksOf_mem (ipc : Nat) (hipc : 1 ≤ ipc) (l : List α) (c : List α)
    (hc : c ∈ chunksOf ipc l) : c ≠ [] ∧ c.length ≤ ipc :=
  chunksOfAux_mem ipc hipc l.length l c hc

theorem chunksOfAux_dropLast (ipc : Nat) (hipc : 1 ≤ ipc) :
    ∀ fuel (l : List α), l.length ≤ fuel →
    ∀ c ∈ (chunksOfAux ipc fuel l).dropLast, c.length = ipc := by
  intro fuel
  induction fuel with
  | zero =>
    intro l hl c hc
    have h : l = [] := List.eq_nil_of_length_eq_zero (Nat.le_zero.mp hl)
    subst h
    simp [chunksOfAux] at hc
  | succ fuel ih =>
    intro l hl c hc
    cases l with
    | nil => simp [chunksOfAux] at hc
    | cons x xs =>
      simp only [chunksOfAux] at hc
      rcases hrest : chunksOfAux ipc fuel (xs.drop (ipc - 1)) with _ | ⟨r, rs⟩
      · rw [hrest] at hc
        simp at hc
      · rw [hrest] at hc
        rw [List.dropLast_cons_of_ne_nil (by simp)] at hc
        have hdrop_ne : xs.drop (ipc - 1) ≠ [] := by
          intro hdn
          rw [hdn, chunksOfAux_nil] at hrest
          exact nomatch hrest
        have hxs_len : ipc - 1 ≤ xs.length := by
          by_contra hlen
          exact hdrop_ne (List.drop_eq_nil_of_le (by omega))
        rw [List.mem_cons] at hc
        rcases hc with he | hm
        · subst he
          simp only [List.length_cons, List.length_take]
          omega
        · have hxs : (xs.drop (ipc - 1)).length ≤ fuel := by
            simp only [List.length_drop]
            simp only [List.length_cons] at hl
            omega
          exact ih _ hxs c (hrest ▸ hm)

theorem chunksOf_dropLast (ipc : Nat) (hipc : 1 ≤ ipc) (l : List α) :
    ∀ c ∈ (chunksOf ipc l).dropLast, c.length = ipc :=
  chunksOfAux_dropLast ipc hipc l.length l (le_refl _)

/-! ### Paste loop lemmas -/

theorem paste_pix_not_covers (canvas img : Img) (cols tw th idx x y : Nat)
    (h : ¬ covers cols tw th idx img x y) :
    (paste canvas (convertRGB img) (cellX cols tw idx) (cellY cols th idx)).pix x y
      = canvas.pix x y := by
  simp only [paste, convertRGB]
  rw [if_neg]
  intro hc
  exact h hc

theorem paste_pix_covers (canvas img : Img) (cols tw th idx x y : Nat)
    (h : covers cols tw th idx img x y) :
    (paste canvas (convertRGB img) (cellX cols tw idx) (cellY cols th idx)).pix x y
      = img.pix (x - cellX cols tw idx) (y - cellY cols th idx) := by
  simp only [paste, convertRGB]
  rw [if_pos]
  exact h

theorem pasteAll_some_of_skip (fs : String → Option Img) (tw th cols : Nat) :
    ∀ (ps : List String) (idx : Nat) (canvas : Img),
    ∃ c, pasteAll fs true tw th cols idx ps canvas = some c := by
  intro ps
  induction ps with
  | nil =>
    intro idx canvas
    exact ⟨canvas, rfl⟩
  | cons p ps ih =>
    intro idx canvas
    cases hfp : fs p with
    | some img =>
      obtain ⟨c, hc⟩ := ih (idx + 1)
        (paste canvas (convertRGB img) (cellX cols tw idx) (cellY cols th idx))
      exact ⟨c, by simp only [pasteAll, hfp]; exact hc⟩
    | none =>
      obtain ⟨c, hc⟩ := ih (idx + 1) canvas
      exact ⟨c, by simp only [pasteAll, hfp, if_true]; exact hc⟩

theorem pasteAll_some_of_open (fs : String → Option Img) (skip : Bool) (tw th cols : Nat) :
    ∀ (ps : List String), (∀ p ∈ ps, fs p ≠ none) →
    ∀ (idx : Nat) (canvas : Img),
    ∃ c, pasteAll fs skip tw th cols idx ps canvas = some c := by
  intro ps
  induction ps with
  | nil =>
    intro _ idx canvas
    exact ⟨canvas, rfl⟩
  | cons p ps ih =>
    intro hopen idx canvas
    cases hfp : fs p with
    | some img =>
      obtain ⟨c, hc⟩ := ih (fun q hq => hopen q (List.mem_cons_of_mem p hq)) (idx + 1)
        (paste canvas (convertRGB img) (cellX cols tw idx) (cellY cols th idx))
      exact ⟨c, by simp only [pasteAll, hfp]; exact hc⟩
    | none =>
      exact absurd hfp (hopen p (List.mem_cons_self p ps))

theorem pasteAll_none_of_fail (fs : String → Option Img) (tw th cols : Nat) :
    ∀ (ps : List String) (p : String), p ∈ ps → fs p = none →
    ∀ (idx : Nat) (canvas : Img),
    pasteAll fs false tw th cols idx ps canvas = none := by
  intro ps
  induction ps with
  | nil =>
    intro p hp
    exact absurd hp (List.not_mem_nil p)
  | cons q ps ih =>
    intro p hp hf idx canvas
    rcases List.mem_cons.mp hp with he | hm
    · subst he
      simp [pasteAll, hf]
    · cases hfq : fs q with
      | some img =>
        simp only [pasteAll, hfq]
        exact ih p hm hf (idx + 1) _
      | none =>
        simp [pasteAll, hfq]

theorem pasteAll_dims (fs : String → Option Img) (skip : Bool) (tw th cols : Nat) :
    ∀ (ps : List String) (idx : Nat) (canvas c : Img),
    pasteAll fs skip tw th cols idx ps canvas = some c →
    c.width = canvas.width ∧ c.height = canvas.height ∧ c.mode = canvas.mode := by
  intro ps
  induction ps with
  | nil =>
    intro idx canvas c h
    cases h
    exact ⟨rfl, rfl, rfl⟩
  | cons p ps ih =>
    intro idx canvas c h
    cases hfp : fs p with
    | some img =>
      rw [show pasteAll fs skip tw th cols idx (p :: ps) canvas
          = pasteAll fs skip tw th cols (idx + 1) ps
            (paste canvas (convertRGB img) (cellX cols tw idx) (cellY cols th idx)) from by
        simp only [pasteAll, hfp]] at h
      obtain ⟨h1, h2, h3⟩ := ih (idx + 1)
        (paste canvas (convertRGB img) (cellX cols tw idx) (cellY cols th idx)) c h
      exact ⟨h1, h2, h3⟩
    | none =>
      cases skip with
      | true =>
        rw [show pasteAll fs true tw th cols idx (p :: ps) canvas
            = pasteAll fs true tw th cols (idx + 1) ps canvas from by
          simp only [pasteAll, hfp, if_true]] at h
        exact ih (idx + 1) canvas c h
      | false =>
        simp only [pasteAll, hfp, if_false] at h
        exact nomatch h

theorem pasteAll_pix_untouched (fs : String → Option Img) (skip : Bool)
    (tw th cols x y : Nat) :
    ∀ (ps : List String) (idx : Nat) (canvas c : Img),
    pasteAll fs skip tw th cols idx ps canvas = some c →
    (∀ (k : Nat) (hk : k < ps.length) (img : Img), fs (ps.get ⟨k, hk⟩) = some img →
      ¬ covers cols tw th (idx + k) img x y) →
    c.pix x y = canvas.pix x y := by
  intro ps
  induction ps with
  | nil =>
    intro idx canvas c h _
    cases h
    rfl
  | cons p ps ih =>
    intro idx canvas c h hno
    cases hfp : fs p with
    | some img =>
      rw [show pasteAll fs skip tw th cols idx (p :: ps) canvas
          = pasteAll fs skip tw th cols (idx + 1) ps
            (paste canvas (convertRGB img) (cellX cols tw idx) (cellY cols th idx)) from by
        simp only [pasteAll, hfp]] at h
      have hshift : ∀ (k : Nat) (hk : k < ps.length) (img2 : Img),
          fs (ps.get ⟨k, hk⟩) = some img2 →
          ¬ covers cols tw th (idx + 1 + k) img2 x y := by
        intro k hk img2 hfk
        have harith : idx + 1 + k = idx + (k + 1) := by omega
        rw [harith]
        exact hno (k + 1) (Nat.succ_lt_succ hk) img2 hfk
      rw [ih (idx + 1) _ c h hshift]
      have h0 : ¬ covers cols tw th idx img x y := by
        have := hno 0 (Nat.succ_pos ps.length) img hfp
        rwa [Nat.add_zero] at this
      exact paste_pix_not_covers canvas img cols tw th idx x y h0
    | none =>
      cases skip with
      | true =>
        rw [show pasteAll fs true tw th cols idx (p :: ps) canvas
            = pasteAll fs true tw th cols (idx + 1) ps canvas from by
          simp only [pasteAll, hfp, if_true]] at h
        have hshift : ∀ (k : Nat) (hk : k < ps.length) (img2 : Img),
            fs (ps.get ⟨k, hk⟩) = some img2 →
            ¬ covers cols tw th (idx + 1 + k) img2 x y := by
          intro k hk img2 hfk
          have harith : idx + 1 + k = idx + (k + 1) := by omega
          rw [harith]
          exact hno (k + 1) (Nat.succ_lt_succ hk) img2 hfk
        exact ih (idx + 1) canvas c h hshift
      | false =>
        simp only [pasteAll, hfp, if_false] at h
        exact nomatch h

theorem pasteAll_pix_value (fs : String → Option Img) (skip : Bool)
    (tw th cols x y : Nat) :
    ∀ (ps : List String) (idx : Nat) (canvas c : Img) (k : Nat) (hk : k < ps.length)
      (img : Img),
    pasteAll fs skip tw th cols idx ps canvas = some c →
    fs (ps.get ⟨k, hk⟩) = some img →
    covers cols tw th (idx + k) img x y →
    (∀ (j : Nat) (hj : j < ps.length), k < j → ∀ img2 : Img,
      fs (ps.get ⟨j, hj⟩) = some img2 → ¬ covers cols tw th (idx + j) img2 x y) →
    c.pix x y = img.pix (x - cellX cols tw (idx + k)) (y - cellY cols th (idx + k)) := by
  intro ps
  induction ps with
  | nil =>
    intro idx canvas c k hk
    exact absurd hk (by simp)
  | cons p ps ih =>
    intro idx canvas c k hk img hrun hget hcov hlater
    cases k with
    | zero =>
      have hp : fs p = some img := hget
      rw [show pasteAll fs skip tw th cols idx (p :: ps) canvas
          = pasteAll fs skip tw th cols (idx + 1) ps
            (paste canvas (convertRGB img) (cellX cols tw idx) (cellY cols th idx)) from by
        simp only [pasteAll, hp]] at hrun
      have hshift : ∀ (k2 : Nat) (hk2 : k2 < ps.length) (img2 : Img),
          fs (ps.get ⟨k2, hk2⟩) = some img2 →
          ¬ covers cols tw th (idx + 1 + k2) img2 x y := by
        intro k2 hk2 img2 hfk
        have harith : idx + 1 + k2 = idx + (k2 + 1) := by omega
        rw [harith]
        exact hlater (k2 + 1) (Nat.succ_lt_succ hk2) (Nat.succ_pos k2) img2 hfk
      rw [pasteAll_pix_untouched fs skip tw th cols x y ps (idx + 1) _ c hrun hshift]
      rw [Nat.add_zero] at hcov ⊢
      exact paste_pix_covers canvas img cols tw th idx x y hcov
    | succ k2 =>
      have hk2 : k2 < ps.length := Nat.lt_of_succ_lt_succ hk
      have hget2 : fs (ps.get ⟨k2, hk2⟩) = some img := hget
      have harith : idx + (k2 + 1) = idx + 1 + k2 := by omega
      rw [harith] at hcov ⊢
      have hlater2 : ∀ (j : Nat) (hj : j < ps.length), k2 < j → ∀ img2 : Img,
          fs (ps.get ⟨j, hj⟩) = some img2 →
          ¬ covers cols tw th (idx + 1 + j) img2 x y := by
        intro j hj hkj img2 hfj
        have harith2 : idx + 1 + j = idx + (j + 1) := by omega
        rw [harith2]
        exact hlater (j + 1) (Nat.succ_lt_succ hj) (Nat.succ_lt_succ hkj) img2 hfj
      cases hfp : fs p with
      | some imgp =>
        rw [show pasteAll fs skip tw th cols idx (p :: ps) canvas
            = pasteAll fs skip tw th cols (idx + 1) ps
              (paste canvas (convertRGB imgp) (cellX cols tw idx) (cellY cols th idx)) from by
          simp only [pasteAll, hfp]] at hrun
        exact ih (idx + 1) _ c k2 hk2 img hrun hget2 hcov hlater2
      | none =>
        cases skip with
        | true =>
          rw [show pasteAll fs true tw th cols idx (p :: ps) canvas
              = pasteAll fs true tw th cols (idx + 1) ps canvas from by
            simp only [pasteAll, hfp, if_true]] at hrun
          exact ih (idx + 1) canvas c k2 hk2 img hrun hget2 hcov hlater2
        | false =>
          simp only [pasteAll, hfp, if_false] at hrun
          exact nomatch hrun

/-! ### Chunk composition lemmas -/

theorem composeChunk_some_of_skip (fs : String → Option Img) (tw th : Nat) (ts : Int)
    (chunk : List String) : ∃ c, composeChunk fs true tw th ts chunk = some c :=
  pasteAll_some_of_skip fs tw th (gridSide chunk.length) chunk 0
    (newCanvas (gridSide chunk.length * tw) (gridSide chunk.length * th))

theorem composeChunk_some_of_open (fs : String → Option Img) (skip : Bool) (tw th : Nat)
    (ts : Int) (chunk : List String) (h : ∀ p ∈ chunk, fs p ≠ none) :
    ∃ c, composeChunk fs skip tw th ts chunk = some c :=
  pasteAll_some_of_open fs skip tw th (gridSide chunk.length) chunk h 0
    (newCanvas (gridSide chunk.length * tw) (gridSide chunk.length * th))

theorem composeChunk_none_of_fail (fs : String → Option Img) (tw th : Nat) (ts : Int)
    (chunk : List String) (p : String) (hp : p ∈ chunk) (hf : fs p = none) :
    composeChunk fs false tw th ts chunk = none :=
  pasteAll_none_of_fail fs tw th (gridSide chunk.length) chunk p hp hf 0
    (newCanvas (gridSide chunk.length * tw) (gridSide chunk.length * th))

theorem composeChunk_dims (fs : String → Option Img) (skip : Bool) (tw th : Nat)
    (ts : Int) (chunk : List String) (c : Img)
    (h : composeChunk fs skip tw th ts chunk = some c) :
    c.width = gridSide chunk.length * tw ∧ c.height = gridSide chunk.length * th ∧
    c.mode = "RGB" :=
  pasteAll_dims fs skip tw th (gridSide chunk.length) chunk 0 _ c h

theorem composeChunk_pix_untouched (fs : String → Option Img) (skip : Bool)
    (tw th : Nat) (ts : Int) (chunk : List String) (c : Img) (x y : Nat)
    (h : composeChunk fs skip tw th ts chunk = some c)
    (hno : ∀ (k : Nat) (hk : k < chunk.length) (img : Img),
      fs (chunk.get ⟨k, hk⟩) = some img →
      ¬ covers (gridSide chunk.length) tw th k img x y) :
    c.pix x y = white := by
  have hshift : ∀ (k : Nat) (hk : k < chunk.length) (img : Img),
      fs (chunk.get ⟨k, hk⟩) = some img →
      ¬ covers (gridSide chunk.length) tw th (0 + k) img x y := by
    intro k hk img hf
    rw [Nat.zero_add]
    exact hno k hk img hf
  exact pasteAll_pix_untouched fs skip tw th (gridSide chunk.length) x y chunk 0 _ c h hshift

theorem composeChunk_pix_value (fs : String → Option Img) (skip : Bool)
    (tw th : Nat) (ts : Int) (chunk : List String) (c : Img) (x y : Nat)
    (k : Nat) (hk : k < chunk.length) (img : Img)
    (h : composeChunk fs skip tw th ts chunk = some c)
    (hget : fs (chunk.get ⟨k, hk⟩) = some img)
    (hcov : covers (gridSide chunk.length) tw th k img x y)
    (hlater : ∀ (j : Nat) (hj : j < chunk.length), k < j → ∀ img2 : Img,
      fs (chunk.get ⟨j, hj⟩) = some img2 →
      ¬ covers (gridSide chunk.length) tw th j img2 x y) :
    c.pix x y = img.pix (x - cellX (gridSide chunk.length) tw k)
      (y - cellY (gridSide chunk.length) th k) := by
  have hcov0 : covers (gridSide chunk.length) tw th (0 + k) img x y := by
    rwa [Nat.zero_add]
  have hlater0 : ∀ (j : Nat) (hj : j < chunk.length), k < j → ∀ img2 : Img,
      fs (chunk.get ⟨j, hj⟩) = some img2 →
      ¬ covers (gridSide chunk.length) tw th (0 + j) img2 x y := by
    intro j hj hkj img2 hfj
    rw [Nat.zero_add]
    exact hlater j hj hkj img2 hfj
  have hv := pasteAll_pix_value fs skip tw th (gridSide chunk.length) x y chunk 0 _ c
    k hk img h hget hcov0 hlater0
  rwa [Nat.zero_add] at hv

/-! ### Chunk loop lemmas -/

theorem collageNames_succ (outDir : String) (k n : Nat) :
    collageNames outDir k (n + 1)
      = pathJoin outDir ("collage_" ++ toString k ++ ".jpg") :: collageNames outDir (k + 1) n := by
  unfold collageNames
  rw [List.range_succ_eq_map]
  simp only [List.map_cons, List.map_map, Nat.add_zero]
  congr 1
  apply List.map_congr_left
  intro i _
  simp only [Function.comp_apply]
  have harith : k + (i + 1) = k + 1 + i := by omega
  rw [harith]

theorem runChunks_ok (fs : String → Option Img) (skip : Bool) (tw th : Nat) (ts : Int)
    (outDir : String) :
    ∀ (chunks : List (List String)),
    (∀ c ∈ chunks, composeChunk fs skip tw th ts c ≠ none) →
    ∀ k, (runChunks fs skip tw th ts outDir k chunks).2 = true ∧
      (runChunks fs skip tw th ts outDir k chunks).1.map Prod.fst
        = collageNames outDir k chunks.length := by
  intro chunks
  induction chunks with
  | nil =>
    intro _ k
    exact ⟨rfl, rfl⟩
  | cons ch chunks ih =>
    intro h k
    have hch : composeChunk fs skip tw th ts ch ≠ none := h ch (List.mem_cons_self ch chunks)
    cases hc : composeChunk fs skip tw th ts ch with
    | none => exact absurd hc hch
    | some canvas =>
      have hstep : runChunks fs skip tw th ts outDir k (ch :: chunks)
          = ((pathJoin outDir ("collage_" ++ toString k ++ ".jpg"), canvas)
              :: (runChunks fs skip tw th ts outDir (k + 1) chunks).1,
             (runChunks fs skip tw th ts outDir (k + 1) chunks).2) := by
        simp only [runChunks, hc]
      obtain ⟨ih1, ih2⟩ := ih (fun c hcm => h c (List.mem_cons_of_mem ch hcm)) (k + 1)
      rw [hstep]
      refine ⟨ih1, ?_⟩
      simp only [List.map_cons, List.length_cons, ih2, collageNames_succ]

theorem runChunks_first_fail (fs : String → Option Img) (tw th : Nat) (ts : Int)
    (outDir : String) :
    ∀ (pre : List (List String)) (bad : List String) (post : List (List String)),
    (∀ c ∈ pre, composeChunk fs false tw th ts c ≠ none) →
    composeChunk fs false tw th ts bad = none →
    ∀ k, (runChunks fs false tw th ts outDir k (pre ++ bad :: post)).2 = false ∧
      (runChunks fs false tw th ts outDir k (pre ++ bad :: post)).1.map Prod.fst
        = collageNames outDir k pre.length := by
  intro pre
  induction pre with
  | nil =>
    intro bad post _ hbad k
    simp only [List.nil_append]
    have hstep : runChunks fs false tw th ts outDir k (bad :: post) = ([], false) := by
      simp only [runChunks, hbad]
    rw [hstep]
    exact ⟨rfl, rfl⟩
  | cons ch pre ih =>
    intro bad post hpre hbad k
    have hch : composeChunk fs false tw th ts ch ≠ none := hpre ch (List.mem_cons_self ch pre)
    cases hc : composeChunk fs false tw th ts ch with
    | none => exact absurd hc hch
    | some canvas =>
      have hstep : runChunks fs false tw th ts outDir k ((ch :: pre) ++ bad :: post)
          = ((pathJoin outDir ("collage_" ++ toString k ++ ".jpg"), canvas)
              :: (runChunks fs false tw th ts outDir (k + 1) (pre ++ bad :: post)).1,
             (runChunks fs false tw th ts outDir (k + 1) (pre ++ bad :: post)).2) := by
        simp only [List.cons_append, runChunks, hc]
        rfl
      obtain ⟨ih1, ih2⟩ := ih bad post (fun c hcm => hpre c (List.mem_cons_of_mem ch hcm)) hbad (k + 1)
      rw [hstep]
      refine ⟨ih1, ?_⟩
      simp only [List.map_cons, List.length_cons, ih2, collageNames_succ]

theorem create_collages_eq (fs : String → Option Img) (cfg : Config) (f0 : String)
    (rest : List String) (ts : Int) (sample : Img) (hs : fs f0 = some sample) :
    create_collages fs cfg (f0 :: rest) ts
      = runChunks fs cfg.skip_errors sample.width sample.height (clampTargetSize ts)
          (dirname f0) 1 (chunksOf (computeChunking sample.width ts).2 (f0 :: rest)) := by
  simp only [create_collages, hs]

/-! ### Claim theorems -/

/-- C10: the grid plan is independent of the target size: for every image
count `n` and any two target sizes `t1`, `t2`,
`calculate_grid_size n t1 = calculate_grid_size n t2`; the `target_size`
parameter has no influence on the returned `(rows, columns)`. -/
theorem grid_independent_of_target_size :
    ∀ (n : Nat) (t1 t2 : Int), calculate_grid_size n t1 = calculate_grid_size n t2 :=
  fun _ _ _ => rfl

/-- C4: for every image count `n ≥ 1`, `calculate_grid_size` returns a square
grid `rows = columns` whose side is the integer ceiling of the square root of
`n` (the least `j` with `n ≤ j * j`, equivalently `(side-1)² < n ≤ side²`);
in particular for `n` in {1,4,5,9,10} the side is {1,2,3,3,4}.  The function
depends only on the image count, so this holds for a trailing chunk with
fewer images as well. -/
theorem calculate_grid_size_ceil_sqrt :
    (∀ (n : Nat) (t : Int), 1 ≤ n →
      (calculate_grid_size n t).1 = (calculate_grid_size n t).2 ∧
      n ≤ (calculate_grid_size n t).1 * (calculate_grid_size n t).1 ∧
      ((calculate_grid_size n t).1 - 1) * ((calculate_grid_size n t).1 - 1) < n ∧
      (∀ j : Nat, n ≤ j * j → (calculate_grid_size n t).1 ≤ j)) ∧
    calculate_grid_size 1 0 = (1, 1) ∧ calculate_grid_size 4 0 = (2, 2) ∧
    calculate_grid_size 5 0 = (3, 3) ∧ calculate_grid_size 9 0 = (3, 3) ∧
    calculate_grid_size 10 0 = (4, 4) := by
  constructor
  · intro n t hn
    obtain ⟨h2, h3⟩ := gridSide_spec n
    simp only [calculate_grid_size]
    refine ⟨by trivial, h2, ?_, h3⟩
    have hg1 : 1 ≤ gridSide n := by
      by_contra hg
      push_neg at hg
      have hgz : gridSide n = 0 := by omega
      rw [hgz] at h2
      omega
    by_contra hcon
    push_neg at hcon
    have hle := h3 _ hcon
    omega
  · refine ⟨by decide, by decide, by decide, by decide, by decide⟩

/-- C4 witness: the characterization applied at the concrete count 5. -/
theorem calculate_grid_size_ceil_sqrt_witness :
    5 ≤ (calculate_grid_size 5 0).1 * (calculate_grid_size 5 0).1 :=
  (calculate_grid_size_ceil_sqrt.1 5 0 (by decide)).2.1

/-- C3: the chunking prologue of `create_collages` replaces any target size
below 100 by the fixed default 2000, then computes
`imagesPerRow = max(1, floor(targetSize / thumbWidth))` (integer floor
division) and `imagesPerCollage = max(1, imagesPerRow²)`; in particular
`computeChunking 500 50 = (4, 16)` and `computeChunking 2500 2000 = (1, 1)`. -/
theorem computeChunking_spec :
    (∀ (tw : Nat) (ts : Int), ts < 100 → computeChunking tw ts = computeChunking tw 2000) ∧
    (∀ (tw : Nat) (ts : Int), 100 ≤ ts →
      (computeChunking tw ts).1 = max 1 (Int.toNat (ts / (tw : Int))) ∧
      (computeChunking tw ts).2
        = max 1 ((computeChunking tw ts).1 * (computeChunking tw ts).1)) ∧
    computeChunking 500 50 = (4, 16) ∧ computeChunking 2500 2000 = (1, 1) := by
  refine ⟨?_, ?_, by decide, by decide⟩
  · intro tw ts hts
    have h1 : clampTargetSize ts = 2000 := by
      simp [clampTargetSize, hts]
    have h2 : clampTargetSize 2000 = 2000 := by
      simp [clampTargetSize]
    simp only [computeChunking, h1, h2]
  · intro tw ts hts
    have h1 : clampTargetSize ts = ts := by
      simp only [clampTargetSize, if_neg (by omega : ¬ ts < 100)]
    obtain ⟨m, rfl⟩ := Int.eq_ofNat_of_zero_le (by omega : (0 : Int) ≤ ts)
    constructor
    · simp only [computeChunking, h1]
      have hdiv : ((m : Int) / (tw : Int)).toNat = m / tw := by
        rw [← Int.ofNat_ediv]
        exact Int.toNat_ofNat _
      rw [hdiv]
      rfl
    · simp only [computeChunking]

/-- C3 witness: a target size below 100 is clamped to the default 2000, and
the floor-division form holds at thumb width 400, target 1000. -/
theorem computeChunking_spec_witness :
    computeChunking 500 50 = computeChunking 500 2000 ∧
    (computeChunking 400 1000).1 = max 1 (Int.toNat ((1000 : Int) / (400 : Int))) :=
  ⟨computeChunking_spec.1 500 50 (by decide),
   (computeChunking_spec.2.1 400 1000 (by decide)).1⟩

/-- C9: an empty image list is never a raised fault: `create_collages` on an
empty list returns an empty result with no exception and writes nothing, and
a scan that finds no eligible file returns the empty list (no fault). -/
theorem empty_inputs_no_fault :
    (∀ (fs : String → Option Img) (cfg : Config) (ts : Int),
      create_collages fs cfg [] ts = ([], true)) ∧
    (∀ (cfg : Config) (directory : String) (entries : List (String × Bool)),
      (∀ e ∈ entries, e.2 = false ∨ startsWithStr (lowerStr e.1) "collage_" = true ∨
        (∀ fmt ∈ splitComma cfg.supported_formats, endsWithStr (lowerStr e.1) fmt = false)) →
      get_image_files cfg directory entries = []) := by
  constructor
  · intro fs cfg ts
    rfl
  · intro cfg directory entries h
    simp only [get_image_files]
    have hfil : List.filter (fun f =>
        !(startsWithStr (lowerStr f) "collage_") &&
        (splitComma cfg.supported_formats).any (fun fmt => endsWithStr (lowerStr f) fmt))
        ((entries.filter (fun e => e.2)).map (fun e => e.1)) = [] := by
      rw [List.filter_eq_nil_iff]
      intro a ha
      obtain ⟨e, he, rfl⟩ := List.mem_map.mp ha
      have he2 : e.2 = true := (List.mem_filter.mp he).2
      have hee : e ∈ entries := (List.mem_filter.mp he).1
      rcases h e hee with hf | hst | hfmt
      · rw [hf] at he2
        exact nomatch he2
      · simp [hst]
      · simp only [Bool.and_eq_true, Bool.not_eq_true', List.any_eq_true, not_and]
        intro _
        rintro ⟨fmt, hfm, hend⟩
        rw [hfmt fmt hfm] at hend
        exact nomatch hend
    rw [hfil]
    rfl

/-- C9 witness: concrete empty-list call and a concrete directory with no
eligible entries. -/
theorem empty_inputs_no_fault_witness :
    create_collages (fun _ => none) default_config [] 0 = ([], true) ∧
    get_image_files default_config "d"
      [("collage_1.jpg", true), ("notes.txt", true), ("sub", false)] = [] := by
  constructor
  · exact empty_inputs_no_fault.1 (fun _ => none) default_config 0
  · refine empty_inputs_no_fault.2 default_config "d" _ ?_
    decide

/-- C1 counterexample: with the configured format list ".JPG" the file
"a.jpg" meets the claim's case-insensitive inclusion conditions (its
lowercased name does not start with `collage_` and ends, case-insensitively,
with the configured extension), yet the scanner returns the empty list,
because the code lowercases only the file name and compares the configured
extension verbatim, as file.lower().endswith(fmt) does.  The reading of the claim
(`get_image_files_ci`) would return the file. -/
theorem scan_case_insensitive_counterexample :
    get_image_files { default_config with supported_formats := ".JPG" } "d"
      [("a.jpg", true)] = [] ∧
    get_image_files_ci { default_config with supported_formats := ".JPG" } "d"
      [("a.jpg", true)] = ["d/a.jpg"] ∧
    endsWithStr (lowerStr "a.jpg") (lowerStr ".JPG") = true ∧
    startsWithStr (lowerStr "a.jpg") "collage_" = false :=
  ⟨by decide, by decide, by decide, by decide⟩

/-- C1 (amended): `get_image_files` returns exactly the full paths of the
non-directory entries whose lowercased name does not start with `collage_`
and whose lowercased name ends with one of the comma-split configured
extensions compared verbatim (so the match is case-insensitive in the file
name only; extensions not written in lowercase never match), sorted in
ascending lexicographic order. -/
theorem scan_characterization :
    ∀ (cfg : Config) (directory : String) (entries : List (String × Bool)),
    List.Sorted (· ≤ ·) (get_image_files cfg directory entries) ∧
    (∀ p : String, p ∈ get_image_files cfg directory entries ↔
      ∃ name : String, (name, true) ∈ entries ∧
        startsWithStr (lowerStr name) "collage_" = false ∧
        (∃ fmt ∈ splitComma cfg.supported_formats, endsWithStr (lowerStr name) fmt = true) ∧
        p = pathJoin directory name) := by
  intro cfg directory entries
  constructor
  · simp only [get_image_files]
    exact sortStrings_sorted _
  · intro p
    simp only [get_image_files]
    rw [mem_sortStrings]
    constructor
    · intro hp
      obtain ⟨f, hf, rfl⟩ := List.mem_map.mp hp
      obtain ⟨hfin, hpred⟩ := List.mem_filter.mp hf
      obtain ⟨e, hein, rfl⟩ := List.mem_map.mp hfin
      obtain ⟨hee, he2⟩ := List.mem_filter.mp hein
      rw [Bool.and_eq_true, Bool.not_eq_true'] at hpred
      obtain ⟨hst, hany⟩ := hpred
      obtain ⟨fmt, hfm, hend⟩ := List.any_eq_true.mp hany
      refine ⟨e.1, ?_, hst, ⟨fmt, hfm, hend⟩, rfl⟩
      have he : e = (e.1, true) := by
        rcases e with ⟨n, b⟩
        simp only [Prod.mk.injEq, true_and]
        simpa using he2
      exact he ▸ hee
    · rintro ⟨name, hin, hst, ⟨fmt, hfm, hend⟩, rfl⟩
      refine List.mem_map.mpr ⟨name, ?_, rfl⟩
      refine List.mem_filter.mpr ⟨?_, ?_⟩
      · exact List.mem_map.mpr ⟨(name, true), List.mem_filter.mpr ⟨hin, rfl⟩, rfl⟩
      · rw [Bool.and_eq_true, Bool.not_eq_true']
        exact ⟨hst, List.any_eq_true.mpr ⟨fmt, hfm, hend⟩⟩

/-- C1 witness: the amended characterization applied to a concrete listing. -/
theorem scan_characterization_witness :
    "d/a.jpg" ∈ get_image_files default_config "d" [("b.PNG", true), ("a.jpg", true)] :=
  ((scan_characterization default_config "d" [("b.PNG", true), ("a.jpg", true)]).2
    "d/a.jpg").mpr ⟨"a.jpg", by decide, by decide, ⟨".jpg", by decide, by decide⟩, by decide⟩

/-- C2 counterexample: with `skip_errors` false, a per-image error in the
first subdirectory aborts the whole driver loop; the second subdirectory is
never processed (the run's outputs are `[[]]` and the completion flag is
false), although the second subdirectory's pipeline on its own would produce
`root/d2/thumbs/collage_1.jpg`.  The claim's assertion that other
directories are unaffected and the driver continues is false. -/
theorem driver_continue_counterexample :
    (processSubdirs fsC2 cfgNoSkip "root" 2000
      [("d1", some [("a.jpg", true)]), ("d2", some [("b.jpg", true)])]).2 = false ∧
    (processSubdirs fsC2 cfgNoSkip "root" 2000
      [("d1", some [("a.jpg", true)]), ("d2", some [("b.jpg", true)])]).1.map
        (List.map Prod.fst) = [[]] ∧
    (create_collages fsC2 cfgNoSkip ["root/d2/thumbs/b.jpg"] 2000).1.map Prod.fst
      = ["root/d2/thumbs/collage_1.jpg"] ∧
    (create_collages fsC2 cfgNoSkip ["root/d2/thumbs/b.jpg"] 2000).2 = true :=
  ⟨by decide, by decide, by decide, by decide⟩

/-- C2 (amended): with `skip_errors` false, an error propagating out of
`create_collages` for one subdirectory aborts the whole run: the driver loop
has no exception handler, so the remaining subdirectories are not processed
and the result does not depend on them at all. -/
theorem driver_abort_on_error :
    ∀ (fs : String → Option Img) (cfg : Config) (root : String) (ts : Int)
      (subdir : String) (listing : List (String × Bool))
      (rest : List (String × Option (List (String × Bool)))),
    (get_image_files cfg (pathJoin (pathJoin root subdir) "thumbs") listing).isEmpty = false →
    (create_collages fs cfg
        (get_image_files cfg (pathJoin (pathJoin root subdir) "thumbs") listing) ts).2 = false →
    processSubdirs fs cfg root ts ((subdir, some listing) :: rest)
      = ([(create_collages fs cfg
            (get_image_files cfg (pathJoin (pathJoin root subdir) "thumbs") listing) ts).1],
         false) := by
  intro fs cfg root ts subdir listing rest hne hfail
  simp only [processSubdirs, hne, hfail]
  simp

/-- C2 witness: the abort behavior at the concrete two-directory run. -/
theorem driver_abort_on_error_witness :
    processSubdirs fsC2 cfgNoSkip "root" 2000
        (("d1", some [("a.jpg", true)]) :: [("d2", some [("b.jpg", true)])])
      = ([(create_collages fsC2 cfgNoSkip
            (get_image_files cfgNoSkip (pathJoin (pathJoin "root" "d1") "thumbs")
              [("a.jpg", true)]) 2000).1], false) :=
  driver_abort_on_error fsC2 cfgNoSkip "root" 2000 "d1" [("a.jpg", true)]
    [("d2", some [("b.jpg", true)])] (by decide) (by decide)

/-- C5: for a non-empty image list whose images all open, `create_collages`
partitions the list into contiguous chunks of length `imagesPerCollage` in
list order (their concatenation is the original list, every chunk is
non-empty and at most `imagesPerCollage` long, and every chunk but possibly
the last is exactly that long); the k-th chunk (1-based) produces the output
`collage_<k>.jpg` joined to the directory of the first image — which is the
scanned directory, since `dirname (pathJoin d f) = d` — and the returned
list is exactly these output paths in chunk order. -/
theorem create_collages_partition :
    ∀ (fs : String → Option Img) (cfg : Config) (files : List String) (ts : Int)
      (sample : Img) (hne : files ≠ []),
    fs (files.head hne) = some sample →
    (∀ p ∈ files, fs p ≠ none) →
    (create_collages fs cfg files ts).2 = true ∧
    (create_collages fs cfg files ts).1.map Prod.fst
      = collageNames (dirname (files.head hne)) 1
          (chunksOf (computeChunking sample.width ts).2 files).length ∧
    (chunksOf (computeChunking sample.width ts).2 files).flatten = files ∧
    (∀ c ∈ chunksOf (computeChunking sample.width ts).2 files,
      c ≠ [] ∧ c.length ≤ (computeChunking sample.width ts).2) ∧
    (∀ c ∈ (chunksOf (computeChunking sample.width ts).2 files).dropLast,
      c.length = (computeChunking sample.width ts).2) ∧
    (∀ (d f : String), '/' ∉ f.data → dirname (pathJoin d f) = d) := by
  intro fs cfg files ts sample hne hs hopen
  have hipc : 1 ≤ (computeChunking sample.width ts).2 := le_max_left 1 _
  cases files with
  | nil => exact absurd rfl hne
  | cons f0 rest =>
    have hs0 : fs f0 = some sample := hs
    rw [create_collages_eq fs cfg f0 rest ts sample hs0]
    have hchunks : ∀ c ∈ chunksOf (computeChunking sample.width ts).2 (f0 :: rest),
        composeChunk fs cfg.skip_errors sample.width sample.height (clampTargetSize ts) c
          ≠ none := by
      intro c hc
      have hcopen : ∀ p ∈ c, fs p ≠ none := by
        intro p hp
        apply hopen
        rw [← chunksOf_flatten (computeChunking sample.width ts).2 (f0 :: rest)]
        exact List.mem_flatten.mpr ⟨c, hc, hp⟩
      obtain ⟨cv, hcv⟩ := composeChunk_some_of_open fs cfg.skip_errors sample.width
        sample.height (clampTargetSize ts) c hcopen
      simp [hcv]
    obtain ⟨h1, h2⟩ := runChunks_ok fs cfg.skip_errors sample.width sample.height
      (clampTargetSize ts) (dirname f0) (chunksOf (computeChunking sample.width ts).2
        (f0 :: rest)) hchunks 1
    refine ⟨h1, h2, chunksOf_flatten _ _, ?_, ?_, ?_⟩
    · intro c hc
      exact chunksOf_mem _ hipc _ c hc
    · intro c hc
      exact chunksOf_dropLast _ hipc _ c hc
    · intro d f hf
      exact dirname_pathJoin d f hf

/-- C5 witness: two images of width 500 at target size 600 give one image per
collage; the run succeeds and returns `collage_1.jpg`, `collage_2.jpg`. -/
theorem create_collages_partition_witness :
    (create_collages fsW default_config ["d/a.jpg", "d/b.jpg"] 600).2 = true ∧
    (create_collages fsW default_config ["d/a.jpg", "d/b.jpg"] 600).1.map Prod.fst
      = collageNames (dirname ((["d/a.jpg", "d/b.jpg"] : List String).head (by simp))) 1
          (chunksOf (computeChunking imgW.width 600).2 ["d/a.jpg", "d/b.jpg"]).length := by
  obtain ⟨h1, h2, _⟩ := create_collages_partition fsW default_config
    ["d/a.jpg", "d/b.jpg"] 600 imgW (by simp) rfl
    (fun p _ => Option.some_ne_none imgW)
  exact ⟨h1, h2⟩

/-- C6: for a chunk whose images all open, the composer returns a canvas of
size `(columns * thumbWidth, rows * thumbHeight)` with mode RGB whose pixels
outside every paste rectangle keep the white background; the image at index
`idx` is converted to RGB and pasted with its top-left corner at
`(col * thumbWidth, row * thumbHeight)` for `row = idx / columns`,
`col = idx % columns`, without scaling: every pixel of the pasted rectangle
(extent given by the image's own dimensions) that no later paste covers
holds that image's own pixel value. -/
theorem composeChunk_placement :
    ∀ (fs : String → Option Img) (skip : Bool) (tw th : Nat) (ts : Int)
      (chunk : List String) (imgs : String → Img),
    (∀ p ∈ chunk, fs p = some (imgs p)) →
    ∃ canvas, composeChunk fs skip tw th ts chunk = some canvas ∧
      canvas.width = (calculate_grid_size chunk.length ts).2 * tw ∧
      canvas.height = (calculate_grid_size chunk.length ts).1 * th ∧
      canvas.mode = "RGB" ∧
      (∀ x y : Nat,
        (∀ (j : Nat) (hj : j < chunk.length),
          ¬ covers (calculate_grid_size chunk.length ts).2 tw th j
            (imgs (chunk.get ⟨j, hj⟩)) x y) →
        canvas.pix x y = white) ∧
      (∀ (k : Nat) (hk : k < chunk.length) (dx dy : Nat),
        dx < (imgs (chunk.get ⟨k, hk⟩)).width →
        dy < (imgs (chunk.get ⟨k, hk⟩)).height →
        (∀ (j : Nat) (hj : j < chunk.length), k < j →
          ¬ covers (calculate_grid_size chunk.length ts).2 tw th j
            (imgs (chunk.get ⟨j, hj⟩))
            (cellX (calculate_grid_size chunk.length ts).2 tw k + dx)
            (cellY (calculate_grid_size chunk.length ts).2 th k + dy)) →
        canvas.pix (cellX (calculate_grid_size chunk.length ts).2 tw k + dx)
            (cellY (calculate_grid_size chunk.length ts).2 th k + dy)
          = (convertRGB (imgs (chunk.get ⟨k, hk⟩))).pix dx dy) := by
  intro fs skip tw th ts chunk imgs hopen
  simp only [calculate_grid_size]
  obtain ⟨canvas, hcv⟩ := composeChunk_some_of_open fs skip tw th ts chunk
    (fun p hp => by rw [hopen p hp]; exact Option.some_ne_none _)
  obtain ⟨hw, hh, hm⟩ := composeChunk_dims fs skip tw th ts chunk canvas hcv
  refine ⟨canvas, hcv, hw, hh, hm, ?_, ?_⟩
  · intro x y hno
    apply composeChunk_pix_untouched fs skip tw th ts chunk canvas x y hcv
    intro j hj img hfj
    have himg : img = imgs (chunk.get ⟨j, hj⟩) := by
      have hoj := hopen (chunk.get ⟨j, hj⟩) (chunk.get_mem j hj)
      rw [hoj] at hfj
      exact ((Option.some.injEq _ _).mp hfj).symm
    rw [himg]
    exact hno j hj
  · intro k hk dx dy hdx hdy hlater
    have hget : fs (chunk.get ⟨k, hk⟩) = some (imgs (chunk.get ⟨k, hk⟩)) :=
      hopen (chunk.get ⟨k, hk⟩) (chunk.get_mem k hk)
    have hcov : covers (gridSide chunk.length) tw th k (imgs (chunk.get ⟨k, hk⟩))
        (cellX (gridSide chunk.length) tw k + dx)
        (cellY (gridSide chunk.length) th k + dy) := by
      unfold covers
      omega
    have hlater2 : ∀ (j : Nat) (hj : j < chunk.length), k < j → ∀ img2 : Img,
        fs (chunk.get ⟨j, hj⟩) = some img2 →
        ¬ covers (gridSide chunk.length) tw th j img2
          (cellX (gridSide chunk.length) tw k + dx)
          (cellY (gridSide chunk.length) th k + dy) := by
      intro j hj hkj img2 hfj
      have himg : img2 = imgs (chunk.get ⟨j, hj⟩) := by
        have hoj := hopen (chunk.get ⟨j, hj⟩) (chunk.get_mem j hj)
        rw [hoj] at hfj
        exact ((Option.some.injEq _ _).mp hfj).symm
      rw [himg]
      exact hlater j hj hkj
    have hv := composeChunk_pix_value fs skip tw th ts chunk canvas
      (cellX (gridSide chunk.length) tw k + dx)
      (cellY (gridSide chunk.length) th k + dy) k hk
      (imgs (chunk.get ⟨k, hk⟩)) hcv hget hcov hlater2
    rw [hv, Nat.add_sub_cancel_left, Nat.add_sub_cancel_left]
    rfl

/-- C6 witness: one 500 by 500 image composed alone: the canvas exists and
holds the image's pixel at the origin. -/
theorem composeChunk_placement_witness :
    ∃ canvas, composeChunk fsW true 500 500 2000 ["d/a.jpg"] = some canvas ∧
      canvas.pix 0 0 = imgW.pix 0 0 := by
  obtain ⟨canvas, hcv, _, _, _, _, hval⟩ := composeChunk_placement fsW true 500 500 2000
    ["d/a.jpg"] (fun _ => imgW) (fun _ _ => rfl)
  refine ⟨canvas, hcv, ?_⟩
  have h := hval 0 (by decide) 0 0 (by decide) (by decide)
    (fun j hj hkj => by
      simp only [List.length_cons, List.length_nil] at hj
      exact absurd hkj (by omega))
  simpa using h
/-- C7: per-image error policy.  (1) With `skip_errors` false a failing image
makes the chunk composition raise (`none`), so the current chunk's file is
not written; (2) at the `create_collages` level, if the chunk `bad` of the
partition contains a failing image while every earlier chunk is clean, the
function propagates the error: the flag is false and exactly the chunks
before `bad` were written (neither the current chunk's output nor any later
one appears); (3) with `skip_errors` true composition always returns a
canvas, and every pixel no successfully opened image covers — in particular
the skipped image's cell — keeps the white background; (4) with
`skip_errors` true the run completes normally and returns the output path of
every chunk. -/
theorem per_image_error_policy :
    (∀ (fs : String → Option Img) (tw th : Nat) (ts : Int) (chunk : List String)
      (p : String), p ∈ chunk → fs p = none →
      composeChunk fs false tw th ts chunk = none) ∧
    (∀ (fs : String → Option Img) (cfg : Config) (f0 : String) (rest : List String)
      (ts : Int) (sample : Img)
      (pre : List (List String)) (bad : List String) (post : List (List String)),
      cfg.skip_errors = false →
      fs f0 = some sample →
      chunksOf (computeChunking sample.width ts).2 (f0 :: rest) = pre ++ bad :: post →
      (∀ c ∈ pre, ∀ p ∈ c, fs p ≠ none) →
      (∃ p ∈ bad, fs p = none) →
      (create_collages fs cfg (f0 :: rest) ts).2 = false ∧
      (create_collages fs cfg (f0 :: rest) ts).1.map Prod.fst
        = collageNames (dirname f0) 1 pre.length) ∧
    (∀ (fs : String → Option Img) (tw th : Nat) (ts : Int) (chunk : List String),
      ∃ canvas, composeChunk fs true tw th ts chunk = some canvas ∧
        ∀ x y : Nat,
          (∀ (j : Nat) (hj : j < chunk.length) (img : Img),
            fs (chunk.get ⟨j, hj⟩) = some img →
            ¬ covers (gridSide chunk.length) tw th j img x y) →
          canvas.pix x y = white) ∧
    (∀ (fs : String → Option Img) (cfg : Config) (f0 : String) (rest : List String)
      (ts : Int) (sample : Img),
      cfg.skip_errors = true →
      fs f0 = some sample →
      (create_collages fs cfg (f0 :: rest) ts).2 = true ∧
      (create_collages fs cfg (f0 :: rest) ts).1.map Prod.fst
        = collageNames (dirname f0) 1
            (chunksOf (computeChunking sample.width ts).2 (f0 :: rest)).length) := by
  refine ⟨?_, ?_, ?_, ?_⟩
  · intro fs tw th ts chunk p hp hf
    exact composeChunk_none_of_fail fs tw th ts chunk p hp hf
  · intro fs cfg f0 rest ts sample pre bad post hskip hs hdecomp hpre hbad
    rw [create_collages_eq fs cfg f0 rest ts sample hs, hskip, hdecomp]
    have hpre2 : ∀ c ∈ pre,
        composeChunk fs false sample.width sample.height (clampTargetSize ts) c ≠ none := by
      intro c hc
      obtain ⟨cv, hcv⟩ := composeChunk_some_of_open fs false sample.width sample.height
        (clampTargetSize ts) c (hpre c hc)
      simp [hcv]
    obtain ⟨p, hp, hfp⟩ := hbad
    have hbad2 : composeChunk fs false sample.width sample.height (clampTargetSize ts) bad
        = none := composeChunk_none_of_fail fs sample.width sample.height
      (clampTargetSize ts) bad p hp hfp
    exact runChunks_first_fail fs sample.width sample.height (clampTargetSize ts)
      (dirname f0) pre bad post hpre2 hbad2 1
  · intro fs tw th ts chunk
    obtain ⟨canvas, hcv⟩ := composeChunk_some_of_skip fs tw th ts chunk
    refine ⟨canvas, hcv, ?_⟩
    intro x y hno
    exact composeChunk_pix_untouched fs true tw th ts chunk canvas x y hcv hno
  · intro fs cfg f0 rest ts sample hskip hs
    rw [create_collages_eq fs cfg f0 rest ts sample hs, hskip]
    have hall : ∀ c ∈ chunksOf (computeChunking sample.width ts).2 (f0 :: rest),
        composeChunk fs true sample.width sample.height (clampTargetSize ts) c ≠ none := by
      intro c _
      obtain ⟨cv, hcv⟩ := composeChunk_some_of_skip fs sample.width sample.height
        (clampTargetSize ts) c
      simp [hcv]
    exact runChunks_ok fs true sample.width sample.height (clampTargetSize ts)
      (dirname f0) (chunksOf (computeChunking sample.width ts).2 (f0 :: rest)) hall 1

/-- C7 witness: with width-500 images and target 600 each collage holds one
image; `fs7` fails on the second image.  With `skip_errors` false the second
chunk raises, only `collage_1.jpg` is written and the run fails; with
`skip_errors` true the composition of the failing chunk still yields a
canvas whose origin pixel stays white, and the run returns both paths. -/
theorem per_image_error_policy_witness :
    composeChunk fs7 false 500 500 600 ["d/b.jpg"] = none ∧
    ((create_collages fs7 cfgNoSkip ["d/a.jpg", "d/b.jpg"] 600).2 = false ∧
      (create_collages fs7 cfgNoSkip ["d/a.jpg", "d/b.jpg"] 600).1.map Prod.fst
        = collageNames (dirname "d/a.jpg") 1 1) ∧
    (∃ canvas, composeChunk fs7 true 500 500 600 ["d/b.jpg"] = some canvas ∧
      canvas.pix 0 0 = white) ∧
    ((create_collages fs7 { default_config with skip_errors := true }
        ["d/a.jpg", "d/b.jpg"] 600).2 = true ∧
      (create_collages fs7 { default_config with skip_errors := true }
          ["d/a.jpg", "d/b.jpg"] 600).1.map Prod.fst
        = collageNames (dirname "d/a.jpg") 1
            (chunksOf (computeChunking imgW.width 600).2 ["d/a.jpg", "d/b.jpg"]).length) := by
  refine ⟨?_, ?_, ?_, ?_⟩
  · exact per_image_error_policy.1 fs7 500 500 600 ["d/b.jpg"] "d/b.jpg"
      (by decide) (by simp [fs7])
  · exact per_image_error_policy.2.1 fs7 cfgNoSkip "d/a.jpg" ["d/b.jpg"] 600 imgW
      [["d/a.jpg"]] ["d/b.jpg"] [] rfl rfl (by decide)
      (by
        intro c hc p hp
        simp only [List.mem_singleton] at hc
        subst hc
        simp only [List.mem_singleton] at hp
        subst hp
        simp [fs7])
      ⟨"d/b.jpg", by decide, by simp [fs7]⟩
  · obtain ⟨canvas, hcv, hwhite⟩ := per_image_error_policy.2.2.1 fs7 500 500 600 ["d/b.jpg"]
    refine ⟨canvas, hcv, ?_⟩
    apply hwhite 0 0
    intro j hj img hfj
    simp only [List.length_cons, List.length_nil] at hj
    have hj0 : j = 0 := by omega
    subst hj0
    have hb : (["d/b.jpg"] : List String).get ⟨0, hj⟩ = "d/b.jpg" := rfl
    rw [hb] at hfj
    simp [fs7] at hfj
  · exact per_image_error_policy.2.2.2 fs7 { default_config with skip_errors := true }
      "d/a.jpg" ["d/b.jpg"] 600 imgW rfl rfl

/-- C8: end-to-end scenario: a directory of five 400 by 400 images at target
size 1000: the scan returns the five paths sorted; the chunking is
`imagesPerRow = 2`, `imagesPerCollage = 4`; the run succeeds and produces
exactly `collage_1.jpg` (an 800 by 800 canvas holding the first four images
in a 2 by 2 grid) and `collage_2.jpg` (a 400 by 400 canvas holding the fifth
image), verified down to cell-corner pixel values. -/
theorem end_to_end_five_images :
    files8 = ["d/thumbs/a1.jpg", "d/thumbs/a2.jpg", "d/thumbs/a3.jpg",
      "d/thumbs/a4.jpg", "d/thumbs/a5.jpg"] ∧
    computeChunking 400 1000 = (2, 4) ∧
    (create_collages fs8 default_config files8 1000).2 = true ∧
    (create_collages fs8 default_config files8 1000).1.map Prod.fst
      = ["d/thumbs/collage_1.jpg", "d/thumbs/collage_2.jpg"] ∧
    ((create_collages fs8 default_config files8 1000).1.getD 0 ("", newCanvas 0 0)).2.width
      = 800 ∧
    ((create_collages fs8 default_config files8 1000).1.getD 0 ("", newCanvas 0 0)).2.height
      = 800 ∧
    ((create_collages fs8 default_config files8 1000).1.getD 1 ("", newCanvas 0 0)).2.width
      = 400 ∧
    ((create_collages fs8 default_config files8 1000).1.getD 1 ("", newCanvas 0 0)).2.height
      = 400 ∧
    ((create_collages fs8 default_config files8 1000).1.getD 0 ("", newCanvas 0 0)).2.pix
      0 0 = (1, 0, 0) ∧
    ((create_collages fs8 default_config files8 1000).1.getD 0 ("", newCanvas 0 0)).2.pix
      400 0 = (2, 0, 0) ∧
    ((create_collages fs8 default_config files8 1000).1.getD 0 ("", newCanvas 0 0)).2.pix
      0 400 = (3, 0, 0) ∧
    ((create_collages fs8 default_config files8 1000).1.getD 0 ("", newCanvas 0 0)).2.pix
      400 400 = (4, 0, 0) ∧
    ((create_collages fs8 default_config files8 1000).1.getD 1 ("", newCanvas 0 0)).2.pix
      0 0 = (5, 0, 0) := by
  refine ⟨by decide, by decide, by decide, by decide, by decide, by decide, by decide,
    by decide, by decide, by decide, by decide, by decide, by decide⟩
end ImageCollage
